import Mathlib

/-!
Verification development for the finite-difference Jacobian engine of
`include/ceres/internal/numeric_diff.h` (struct `NumericDiff`, member
`EvaluateJacobianForParameterBlock`, and its `kParameterBlockSize == 0`
partial specialization).

Doubles are modelled as rationals (`ℚ`): every operation the routine performs
(abs, max, +, -, *, /) is exact on the values the claims are about, and
`sqrt(machine epsilon)` is the exact rational `2 ^ (-26)` because
`machine epsilon = 2 ^ (-52)` is a perfect square.

The residual-evaluation capability (`EvaluateImpl`, which wraps either the
variadic functor or a `CostFunction::Evaluate` call) is modelled as a function
`List (List ℚ) → Option (List ℚ)`: given the full set of parameter blocks it
either produces a residual vector (`some`) or reports failure (`none`).

The in-place mutation of `parameters[parameter_block_index]` and of the
caller-owned `jacobian` buffer is modelled by explicit state passing: the
result record carries the final contents of both buffers.  In addition the
result records the chronological list of parameter states at which the
evaluation capability was invoked, which is the observable event trace of the
routine (each `EvaluateImpl` call site appends exactly one entry).
-/

set_option maxHeartbeats 1000000

/-- Modelled from the spec: `machine epsilon` of IEEE double precision,
`std::numeric_limits<double>::epsilon() = 2^(-52)` (the C++ standard library
is outside the repository sources). -/
def machineEpsilon : ℚ := 1 / 2 ^ 52

/-- Source lines 140-141: `min_step_size = sqrt(std::numeric_limits<double>::epsilon())`.
Since `machineEpsilon = 2^(-52)` is a perfect square, its square root is the
exact rational (and exact double) `2^(-26)`. -/
def minStepSize : ℚ := 1 / 2 ^ 26

/-- Modelled from the spec: the sentinel `ceres::DYNAMIC` (declared in
`ceres/types.h`, which is not under `src/`) marking a dimension as known only
at run time.  Its concrete value is irrelevant to the claims; it only matters
that genuine compile-time sizes differ from it. -/
def DYNAMIC : Int := -1

/-- Modelled from the spec: the closed choice between forward and central
differencing (`ceres::NumericDiffMethod`, declared in `ceres/types.h`, which
is not under `src/`). -/
inductive NumericDiffMethod where
  | FORWARD
  | CENTRAL
deriving DecidableEq

/-- Source lines 103-110: each effective dimension prefers the compile-time
template constant and falls back to the run-time argument only when the
constant is `DYNAMIC`, e.g.
`(kNumResiduals != ceres::DYNAMIC ? kNumResiduals : num_residuals)`. -/
def resolveDim (k runtime : Int) : Int :=
  if k ≠ DYNAMIC then k else runtime

/-- Writing coordinate `j` of parameter block `i`:
`x_plus_delta(j) = v` where `x_plus_delta` maps onto
`parameters[parameter_block_index_internal]` (source lines 130-132). -/
def setCoord (ps : List (List ℚ)) (i j : ℕ) (v : ℚ) : List (List ℚ) :=
  ps.set i ((ps.getD i []).set j v)

/-- Apply `g` to every entry of a list together with its position, starting
positions at `k`.  This is the elementary buffer-rewriting operation used to
model Eigen column writes into the flat caller-owned `jacobian` buffer. -/
def updateCol (g : ℕ → ℚ → ℚ) : ℕ → List ℚ → List ℚ
  | _, [] => []
  | k, a :: rest => g k a :: updateCol g (k + 1) rest

/-- Eigen `parameter_jacobian.col(j) = v` (source line 159) on the flat
buffer viewed as a row-major `m × n` matrix: entry `(row, j)` lives at flat
position `row * n + j`, i.e. the positions `k` with `k % n = j` and
`k / n < m`.  (When `n = 1` the view is column-major — source lines 119-123 —
but for a single column the two layouts place entry `(row, 0)` at the same
flat position `row`, so one definition covers both.) -/
def colAssign (jac : List ℚ) (m n j : ℕ) (v : List ℚ) : List ℚ :=
  updateCol (fun k a => if k % n = j ∧ k / n < m then v.getD (k / n) 0 else a) 0 jac

/-- Eigen `parameter_jacobian.col(j) -= v` (source lines 171 and 175-177). -/
def colSub (jac : List ℚ) (m n j : ℕ) (v : List ℚ) : List ℚ :=
  updateCol (fun k a => if k % n = j ∧ k / n < m then a - v.getD (k / n) 0 else a) 0 jac

/-- Eigen `parameter_jacobian.col(j) *= c` (source line 182). -/
def colScale (jac : List ℚ) (m n j : ℕ) (c : ℚ) : List ℚ :=
  updateCol (fun k a => if k % n = j ∧ k / n < m then a * c else a) 0 jac

/-- Source line 134: `step_size = x.array().abs() * relative_step_size`,
computed once from the saved copy `x` of the parameter block. -/
def stepSizeVector (relative_step_size : ℚ) (x : List ℚ) : List ℚ :=
  x.map fun xj => |xj| * relative_step_size

/-- Source line 147: `delta = std::max(min_step_size, step_size(j))`. -/
def deltaAt (step_size : List ℚ) (j : ℕ) : ℚ :=
  max minStepSize (step_size.getD j 0)

/-- Result of one call to `EvaluateJacobianForParameterBlock`: the returned
boolean, the final contents of the `parameters` blocks and of the flat
`jacobian` buffer, and the chronological list of parameter states at which
the residual-evaluation capability was invoked. -/
structure NDResult where
  ok : Bool
  params : List (List ℚ)
  jacobian : List ℚ
  evals : List (List (List ℚ))
deriving DecidableEq

/-- Source lines 146-184: the per-coordinate finite-difference loop
`for (int j = 0; j < parameter_block_size_internal; ++j)`, embedded as
structural recursion over the list of remaining coordinate indices
(`List.range parameter_block_size_internal` at the top-level call).
Each iteration:
perturb `x_plus_delta(j) = x(j) + delta` (line 148); evaluate, failing the
whole call on evaluation failure (lines 150-153); `col(j) = residuals`
(line 159); for CENTRAL, perturb to `x(j) - delta`, evaluate (failing the
call on failure), `col(j) -= residuals`, halve the divisor (lines 162-172);
for FORWARD, `col(j) -= residuals_at_eval_point` (lines 175-177); restore
`x_plus_delta(j) = x(j)` (line 179); `col(j) *= one_over_delta` (line 182). -/
def forEachCoordinate (kMethod : NumericDiffMethod)
    (f : List (List ℚ) → Option (List ℚ))
    (residuals_at_eval_point : List ℚ)
    (x step_size : List ℚ) (m i n : ℕ) :
    List ℕ → List (List ℚ) → List ℚ → NDResult
  | [], parameters, jacobian => ⟨true, parameters, jacobian, []⟩
  | j :: js, parameters, jacobian =>
    let delta := deltaAt step_size j
    let parameters1 := setCoord parameters i j (x.getD j 0 + delta)
    match f parameters1 with
    | none => ⟨false, parameters1, jacobian, [parameters1]⟩
    | some residuals =>
      let jacobian1 := colAssign jacobian m n j residuals
      let one_over_delta := (1 : ℚ) / delta
      if kMethod = NumericDiffMethod.CENTRAL then
        let parameters2 := setCoord parameters1 i j (x.getD j 0 - delta)
        match f parameters2 with
        | none => ⟨false, parameters2, jacobian1, [parameters1, parameters2]⟩
        | some residuals2 =>
          let jacobian2 := colSub jacobian1 m n j residuals2
          let one_over_delta2 := one_over_delta / 2
          let parameters3 := setCoord parameters2 i j (x.getD j 0)
          let jacobian3 := colScale jacobian2 m n j one_over_delta2
          let rest := forEachCoordinate kMethod f residuals_at_eval_point
            x step_size m i n js parameters3 jacobian3
          ⟨rest.ok, rest.params, rest.jacobian, parameters1 :: parameters2 :: rest.evals⟩
      else
        let jacobian2 := colSub jacobian1 m n j residuals_at_eval_point
        let parameters2 := setCoord parameters1 i j (x.getD j 0)
        let jacobian3 := colScale jacobian2 m n j one_over_delta
        let rest := forEachCoordinate kMethod f residuals_at_eval_point
          x step_size m i n js parameters2 jacobian3
        ⟨rest.ok, rest.params, rest.jacobian, parameters1 :: rest.evals⟩

/-- Source lines 89-185: `NumericDiff::EvaluateJacobianForParameterBlock` of
the primary template.  Template constants (`kNumResiduals`, `kParameterBlock`,
`kParameterBlockSize`) and run-time arguments are both passed explicitly;
lines 103-110 resolve the effective dimensions, line 133 saves the copy `x`
of the target block, line 134 builds the step-size vector, and lines 146-184
run the per-coordinate loop. -/
def EvaluateJacobianForParameterBlock
    (kMethod : NumericDiffMethod)
    (kNumResiduals kParameterBlock kParameterBlockSize : Int)
    (functor : List (List ℚ) → Option (List ℚ))
    (residuals_at_eval_point : List ℚ)
    (relative_step_size : ℚ)
    (num_residuals parameter_block_index parameter_block_size : Int)
    (parameters : List (List ℚ))
    (jacobian : List ℚ) : NDResult :=
  let num_residuals_internal := resolveDim kNumResiduals num_residuals
  let parameter_block_index_internal := resolveDim kParameterBlock parameter_block_index
  let parameter_block_size_internal := resolveDim kParameterBlockSize parameter_block_size
  let m := num_residuals_internal.toNat
  let i := parameter_block_index_internal.toNat
  let n := parameter_block_size_internal.toNat
  let x := parameters.getD i []
  let step_size := stepSizeVector relative_step_size x
  forEachCoordinate kMethod functor residuals_at_eval_point x step_size m i n
    (List.range n) parameters jacobian

/-- Outcome of a call once the `kParameterBlockSize == 0` partial
specialization (source lines 188-219) is taken into account: either the
fatal `LOG(FATAL)` path, which aborts the process (the `return true` after
it on line 217 is unreachable and only silences the compiler), or a normal
return carrying an `NDResult`. -/
inductive NDOutcome where
  | fatal
  | normal (r : NDResult)
deriving DecidableEq

/-- Source lines 194-219: the `kParameterBlockSize == 0` partial
specialization.  Every argument is ignored (`(void)` casts, lines 208-215)
and `LOG(FATAL)` terminates the process (line 216). -/
def EvaluateJacobianForParameterBlockZeroSize
    (kMethod : NumericDiffMethod)
    (kNumResiduals kParameterBlock : Int)
    (functor : List (List ℚ) → Option (List ℚ))
    (residuals_at_eval_point : List ℚ)
    (relative_step_size : ℚ)
    (num_residuals parameter_block_index parameter_block_size : Int)
    (parameters : List (List ℚ))
    (jacobian : List ℚ) : NDOutcome :=
  NDOutcome.fatal

/-- C++ template dispatch over `kParameterBlockSize`: the partial
specialization `NumericDiff<..., kParameterBlock, 0>` (source lines 188-196)
is selected exactly when the compile-time block size equals `0`; every other
value of the constant (including `DYNAMIC`) selects the primary template. -/
def NumericDiffDispatch
    (kMethod : NumericDiffMethod)
    (kNumResiduals kParameterBlock kParameterBlockSize : Int)
    (functor : List (List ℚ) → Option (List ℚ))
    (residuals_at_eval_point : List ℚ)
    (relative_step_size : ℚ)
    (num_residuals parameter_block_index parameter_block_size : Int)
    (parameters : List (List ℚ))
    (jacobian : List ℚ) : NDOutcome :=
  if kParameterBlockSize = 0 then
    EvaluateJacobianForParameterBlockZeroSize kMethod kNumResiduals kParameterBlock
      functor residuals_at_eval_point relative_step_size
      num_residuals parameter_block_index parameter_block_size parameters jacobian
  else
    NDOutcome.normal (EvaluateJacobianForParameterBlock kMethod
      kNumResiduals kParameterBlock kParameterBlockSize
      functor residuals_at_eval_point relative_step_size
      num_residuals parameter_block_index parameter_block_size parameters jacobian)

/-- Residual capability used by concrete witnesses: one residual equal to
coordinate `0` of block `0` (a total, always-succeeding evaluation). -/
def fdiag : List (List ℚ) → Option (List ℚ) :=
  fun ps => some [(ps.getD 0 []).getD 0 0]

/-- Residual capability used by concrete witnesses: always fails. -/
def fnone : List (List ℚ) → Option (List ℚ) :=
  fun _ => none

/-! ### Generic list lemmas -/

theorem getD_set_self {α : Type} (p : List α) (i : ℕ) (X d : α) (hi : i < p.length) :
    (p.set i X).getD i d = X := by
  induction p generalizing i with
  | nil => simp at hi
  | cons a t ih =>
    cases i with
    | zero => rfl
    | succ i => simpa using ih i (by simpa using hi)

theorem set_getD_self {α : Type} (l : List α) (j : ℕ) (d : α) :
    l.set j (l.getD j d) = l := by
  induction l generalizing j with
  | nil => rfl
  | cons a t ih =>
    cases j with
    | zero => rfl
    | succ j => simpa using ih j

/-! ### Lemmas about `setCoord` -/

theorem setCoord_collapse (p : List (List ℚ)) (i j : ℕ) (v w : ℚ) :
    setCoord (setCoord p i j v) i j w = setCoord p i j w := by
  unfold setCoord
  rcases Nat.lt_or_ge i p.length with hi | hi
  · rw [getD_set_self _ _ _ _ hi, List.set_set, List.set_set]
  · rw [List.set_eq_of_length_le hi, List.set_eq_of_length_le hi]

theorem setCoord_restore (p : List (List ℚ)) (i j : ℕ) :
    setCoord p i j ((p.getD i []).getD j 0) = p := by
  unfold setCoord
  rw [set_getD_self, set_getD_self]

/-! ### Lemmas about the flat-buffer column operations -/

theorem updateCol_length (g : ℕ → ℚ → ℚ) (l : List ℚ) :
    ∀ k, (updateCol g k l).length = l.length := by
  induction l with
  | nil => intro k; rfl
  | cons a t ih => intro k; simp [updateCol, ih]

theorem updateCol_getD (g : ℕ → ℚ → ℚ) (l : List ℚ) :
    ∀ k t, (updateCol g k l).getD t 0 =
      if t < l.length then g (k + t) (l.getD t 0) else 0 := by
  induction l with
  | nil => intro k t; simp [updateCol]
  | cons a rest ih =>
    intro k t
    cases t with
    | zero => simp [updateCol]
    | succ t =>
      simp only [updateCol, List.getD_cons_succ, ih (k + 1) t, List.length_cons]
      have hkt : k + 1 + t = k + (t + 1) := by omega
      rw [hkt]
      by_cases h : t < rest.length
      · rw [if_pos h, if_pos (by omega)]
      · rw [if_neg h, if_neg (by omega)]

theorem colAssign_length (jac : List ℚ) (m n j : ℕ) (v : List ℚ) :
    (colAssign jac m n j v).length = jac.length := updateCol_length _ _ _

theorem colSub_length (jac : List ℚ) (m n j : ℕ) (v : List ℚ) :
    (colSub jac m n j v).length = jac.length := updateCol_length _ _ _

theorem colScale_length (jac : List ℚ) (m n j : ℕ) (c : ℚ) :
    (colScale jac m n j c).length = jac.length := updateCol_length _ _ _

theorem colAssign_getD (jac : List ℚ) (m n j : ℕ) (v : List ℚ) (t : ℕ) :
    (colAssign jac m n j v).getD t 0 =
      if t < jac.length then
        (if t % n = j ∧ t / n < m then v.getD (t / n) 0 else jac.getD t 0)
      else 0 := by
  simpa [colAssign] using updateCol_getD
    (fun k a => if k % n = j ∧ k / n < m then v.getD (k / n) 0 else a) jac 0 t

theorem colSub_getD (jac : List ℚ) (m n j : ℕ) (v : List ℚ) (t : ℕ) :
    (colSub jac m n j v).getD t 0 =
      if t < jac.length then
        (if t % n = j ∧ t / n < m then jac.getD t 0 - v.getD (t / n) 0 else jac.getD t 0)
      else 0 := by
  simpa [colSub] using updateCol_getD
    (fun k a => if k % n = j ∧ k / n < m then a - v.getD (k / n) 0 else a) jac 0 t

theorem colScale_getD (jac : List ℚ) (m n j : ℕ) (c : ℚ) (t : ℕ) :
    (colScale jac m n j c).getD t 0 =
      if t < jac.length then
        (if t % n = j ∧ t / n < m then jac.getD t 0 * c else jac.getD t 0)
      else 0 := by
  simpa [colScale] using updateCol_getD
    (fun k a => if k % n = j ∧ k / n < m then a * c else a) jac 0 t

theorem getD_eq_zero_of_length_le (l : List ℚ) (t : ℕ) (h : l.length ≤ t) :
    l.getD t 0 = 0 := by
  induction l generalizing t with
  | nil => rfl
  | cons a rest ih =>
    cases t with
    | zero => simp at h
    | succ t => simpa using ih t (by simpa using h)

theorem colAssign_getD_untouched (jac : List ℚ) (m n j : ℕ) (v : List ℚ) (t : ℕ)
    (h : ¬(t % n = j ∧ t / n < m)) :
    (colAssign jac m n j v).getD t 0 = jac.getD t 0 := by
  rw [colAssign_getD]
  by_cases ht : t < jac.length
  · rw [if_pos ht, if_neg h]
  · rw [if_neg ht, getD_eq_zero_of_length_le _ _ (by omega)]

theorem colSub_getD_untouched (jac : List ℚ) (m n j : ℕ) (v : List ℚ) (t : ℕ)
    (h : ¬(t % n = j ∧ t / n < m)) :
    (colSub jac m n j v).getD t 0 = jac.getD t 0 := by
  rw [colSub_getD]
  by_cases ht : t < jac.length
  · rw [if_pos ht, if_neg h]
  · rw [if_neg ht, getD_eq_zero_of_length_le _ _ (by omega)]

theorem colScale_getD_untouched (jac : List ℚ) (m n j : ℕ) (c : ℚ) (t : ℕ)
    (h : ¬(t % n = j ∧ t / n < m)) :
    (colScale jac m n j c).getD t 0 = jac.getD t 0 := by
  rw [colScale_getD]
  by_cases ht : t < jac.length
  · rw [if_pos ht, if_neg h]
  · rw [if_neg ht, getD_eq_zero_of_length_le _ _ (by omega)]

/-! ### Row-major index arithmetic -/

theorem rowcol_mod (row n c : ℕ) (hc : c < n) : (row * n + c) % n = c := by
  have h1 : row * n + c = n * row + c := by rw [Nat.mul_comm]
  rw [h1, Nat.mul_add_mod, Nat.mod_eq_of_lt hc]

theorem rowcol_div (row n c : ℕ) (hc : c < n) : (row * n + c) / n = row := by
  have h1 : row * n + c = n * row + c := by rw [Nat.mul_comm]
  rw [h1, Nat.mul_add_div (by omega), Nat.div_eq_of_lt hc]
  omega

theorem rowcol_lt (row n c m : ℕ) (hc : c < n) (hrow : row < m) :
    row * n + c < m * n := by
  calc row * n + c < (row + 1) * n := by
        have : (row + 1) * n = row * n + n := by ring
        omega
  _ ≤ m * n := Nat.mul_le_mul_right n hrow

theorem colAssign_entry (jac : List ℚ) (m n j : ℕ) (v : List ℚ) (row c : ℕ)
    (hc : c < n) (hrow : row < m) (hlen : m * n ≤ jac.length) :
    (colAssign jac m n j v).getD (row * n + c) 0 =
      if c = j then v.getD row 0 else jac.getD (row * n + c) 0 := by
  rw [colAssign_getD,
    if_pos (lt_of_lt_of_le (rowcol_lt row n c m hc hrow) hlen)]
  simp only [rowcol_mod row n c hc, rowcol_div row n c hc]
  by_cases h : c = j
  · rw [if_pos ⟨h, hrow⟩, if_pos h]
  · rw [if_neg (fun hand => h hand.1), if_neg h]

theorem colSub_entry (jac : List ℚ) (m n j : ℕ) (v : List ℚ) (row c : ℕ)
    (hc : c < n) (hrow : row < m) (hlen : m * n ≤ jac.length) :
    (colSub jac m n j v).getD (row * n + c) 0 =
      if c = j then jac.getD (row * n + c) 0 - v.getD row 0
      else jac.getD (row * n + c) 0 := by
  rw [colSub_getD,
    if_pos (lt_of_lt_of_le (rowcol_lt row n c m hc hrow) hlen)]
  simp only [rowcol_mod row n c hc, rowcol_div row n c hc]
  by_cases h : c = j
  · rw [if_pos ⟨h, hrow⟩, if_pos h]
  · rw [if_neg (fun hand => h hand.1), if_neg h]

theorem colScale_entry (jac : List ℚ) (m n j : ℕ) (c : ℚ) (row col : ℕ)
    (hcol : col < n) (hrow : row < m) (hlen : m * n ≤ jac.length) :
    (colScale jac m n j c).getD (row * n + col) 0 =
      if col = j then jac.getD (row * n + col) 0 * c
      else jac.getD (row * n + col) 0 := by
  rw [colScale_getD,
    if_pos (lt_of_lt_of_le (rowcol_lt row n col m hcol hrow) hlen)]
  simp only [rowcol_mod row n col hcol, rowcol_div row n col hcol]
  by_cases h : col = j
  · rw [if_pos ⟨h, hrow⟩, if_pos h]
  · rw [if_neg (fun hand => h hand.1), if_neg h]

/-! ### Loop-level lemmas about `forEachCoordinate` -/

theorem loop_central_ignores_rE
    (f : List (List ℚ) → Option (List ℚ)) (rE1 rE2 x st : List ℚ) (m i n : ℕ) :
    ∀ (js : List ℕ) (p : List (List ℚ)) (q : List ℚ),
      forEachCoordinate .CENTRAL f rE1 x st m i n js p q =
      forEachCoordinate .CENTRAL f rE2 x st m i n js p q := by
  intro js
  induction js with
  | nil => intro p q; rfl
  | cons j js ih =>
    intro p q
    simp only [forEachCoordinate]
    cases f (setCoord p i j (x.getD j 0 + deltaAt st j)) with
    | none => rfl
    | some residuals =>
      simp only [reduceIte]
      cases f (setCoord (setCoord p i j (x.getD j 0 + deltaAt st j)) i j
          (x.getD j 0 - deltaAt st j)) with
      | none => rfl
      | some residuals2 => simp only [ih]

theorem loop_ok_params (kMethod : NumericDiffMethod)
    (f : List (List ℚ) → Option (List ℚ)) (rE x st : List ℚ) (m i n : ℕ) :
    ∀ (js : List ℕ) (p : List (List ℚ)) (q : List ℚ),
      (∀ j ∈ js, (p.getD i []).getD j 0 = x.getD j 0) →
      (forEachCoordinate kMethod f rE x st m i n js p q).ok = true →
      (forEachCoordinate kMethod f rE x st m i n js p q).params = p := by
  intro js
  induction js with
  | nil => intro p q hx hok; rfl
  | cons j js ih =>
    intro p q hx hok
    have hx0 : (p.getD i []).getD j 0 = x.getD j 0 := hx j (List.mem_cons_self j js)
    have hx' : ∀ j' ∈ js, (p.getD i []).getD j' 0 = x.getD j' 0 :=
      fun j' h => hx j' (List.mem_cons_of_mem _ h)
    cases hf1 : f (setCoord p i j (x.getD j 0 + deltaAt st j)) with
    | none =>
      simp only [forEachCoordinate, hf1] at hok
      exact Bool.noConfusion hok
    | some rp0 =>
      cases kMethod with
      | FORWARD =>
        have hp2 : setCoord (setCoord p i j (x.getD j 0 + deltaAt st j)) i j
            (x.getD j 0) = p := by
          rw [setCoord_collapse, ← hx0, setCoord_restore]
        simp only [forEachCoordinate, hf1, reduceIte] at hok ⊢
        rw [hp2] at hok ⊢
        exact ih p _ hx' hok
      | CENTRAL =>
        cases hf2 : f (setCoord (setCoord p i j (x.getD j 0 + deltaAt st j)) i j
            (x.getD j 0 - deltaAt st j)) with
        | none =>
          simp only [forEachCoordinate, hf1, reduceIte, hf2] at hok
          exact Bool.noConfusion hok
        | some rm0 =>
          have hp3 : setCoord (setCoord (setCoord p i j (x.getD j 0 + deltaAt st j)) i j
              (x.getD j 0 - deltaAt st j)) i j (x.getD j 0) = p := by
            rw [setCoord_collapse, setCoord_collapse, ← hx0, setCoord_restore]
          simp only [forEachCoordinate, hf1, reduceIte, hf2] at hok ⊢
          rw [hp3] at hok ⊢
          exact ih p _ hx' hok

theorem loop_fail_params (kMethod : NumericDiffMethod)
    (f : List (List ℚ) → Option (List ℚ)) (rE x st : List ℚ) (m i n : ℕ) :
    ∀ (js : List ℕ) (p : List (List ℚ)) (q : List ℚ),
      (∀ j ∈ js, (p.getD i []).getD j 0 = x.getD j 0) →
      (forEachCoordinate kMethod f rE x st m i n js p q).ok = false →
      ∃ j ∈ js,
        ((forEachCoordinate kMethod f rE x st m i n js p q).params =
            setCoord p i j (x.getD j 0 + deltaAt st j) ∧
          f (setCoord p i j (x.getD j 0 + deltaAt st j)) = none) ∨
        (kMethod = NumericDiffMethod.CENTRAL ∧
          (forEachCoordinate kMethod f rE x st m i n js p q).params =
            setCoord p i j (x.getD j 0 - deltaAt st j) ∧
          f (setCoord p i j (x.getD j 0 - deltaAt st j)) = none) := by
  intro js
  induction js with
  | nil =>
    intro p q hx hok
    exact Bool.noConfusion hok
  | cons j js ih =>
    intro p q hx hok
    have hx0 : (p.getD i []).getD j 0 = x.getD j 0 := hx j (List.mem_cons_self j js)
    have hx' : ∀ j' ∈ js, (p.getD i []).getD j' 0 = x.getD j' 0 :=
      fun j' h => hx j' (List.mem_cons_of_mem _ h)
    cases hf1 : f (setCoord p i j (x.getD j 0 + deltaAt st j)) with
    | none =>
      refine ⟨j, List.mem_cons_self j js, Or.inl ⟨?_, hf1⟩⟩
      simp only [forEachCoordinate, hf1]
    | some rp0 =>
      cases kMethod with
      | FORWARD =>
        have hp2 : setCoord (setCoord p i j (x.getD j 0 + deltaAt st j)) i j
            (x.getD j 0) = p := by
          rw [setCoord_collapse, ← hx0, setCoord_restore]
        simp only [forEachCoordinate, hf1, reduceIte] at hok ⊢
        rw [hp2] at hok ⊢
        obtain ⟨j', hj', hcase⟩ := ih p _ hx' hok
        exact ⟨j', List.mem_cons_of_mem _ hj', hcase⟩
      | CENTRAL =>
        cases hf2 : f (setCoord (setCoord p i j (x.getD j 0 + deltaAt st j)) i j
            (x.getD j 0 - deltaAt st j)) with
        | none =>
          have hpt : setCoord (setCoord p i j (x.getD j 0 + deltaAt st j)) i j
              (x.getD j 0 - deltaAt st j) = setCoord p i j (x.getD j 0 - deltaAt st j) :=
            setCoord_collapse p i j _ _
          refine ⟨j, List.mem_cons_self j js, Or.inr ⟨rfl, ?_, ?_⟩⟩
          · simp only [forEachCoordinate, hf1, reduceIte, hf2]
            exact hpt
          · rw [← hpt]
            exact hf2
        | some rm0 =>
          have hp3 : setCoord (setCoord (setCoord p i j (x.getD j 0 + deltaAt st j)) i j
              (x.getD j 0 - deltaAt st j)) i j (x.getD j 0) = p := by
            rw [setCoord_collapse, setCoord_collapse, ← hx0, setCoord_restore]
          simp only [forEachCoordinate, hf1, reduceIte, hf2] at hok ⊢
          rw [hp3] at hok ⊢
          obtain ⟨j', hj', hcase⟩ := ih p _ hx' hok
          rcases hcase with h | h
          · exact ⟨j', List.mem_cons_of_mem _ hj', Or.inl h⟩
          · exact ⟨j', List.mem_cons_of_mem _ hj', Or.inr ⟨trivial, h.2⟩⟩

theorem loop_ok_iff (kMethod : NumericDiffMethod)
    (f : List (List ℚ) → Option (List ℚ)) (rE x st : List ℚ) (m i n : ℕ) :
    ∀ (js : List ℕ) (p : List (List ℚ)) (q : List ℚ),
      (forEachCoordinate kMethod f rE x st m i n js p q).ok = true ↔
      (∀ e ∈ (forEachCoordinate kMethod f rE x st m i n js p q).evals, f e ≠ none) := by
  intro js
  induction js with
  | nil =>
    intro p q
    constructor
    · intro _ e he
      exact absurd he (List.not_mem_nil e)
    · intro _
      rfl
  | cons j js ih =>
    intro p q
    simp only [forEachCoordinate]
    cases hf1 : f (setCoord p i j (x.getD j 0 + deltaAt st j)) with
    | none =>
      constructor
      · intro h
        exact Bool.noConfusion h
      · intro h
        exact absurd hf1 (h _ (List.mem_cons_self _ _))
    | some rp0 =>
      cases kMethod with
      | FORWARD =>
        constructor
        · intro h e he
          rcases List.mem_cons.mp he with rfl | he'
          · intro hc
            rw [hf1] at hc
            exact Option.noConfusion hc
          · exact (ih _ _).mp h e he'
        · intro h
          exact (ih _ _).mpr fun e he => h e (List.mem_cons_of_mem _ he)
      | CENTRAL =>
        cases hf2 : f (setCoord (setCoord p i j (x.getD j 0 + deltaAt st j)) i j
            (x.getD j 0 - deltaAt st j)) with
        | none =>
          constructor
          · intro h
            exact Bool.noConfusion h
          · intro h
            exact absurd hf2 (h _ (List.mem_cons_of_mem _ (List.mem_cons_self _ _)))
        | some rm0 =>
          constructor
          · intro h e he
            rcases List.mem_cons.mp he with rfl | he'
            · intro hc
              rw [hf1] at hc
              exact Option.noConfusion hc
            · rcases List.mem_cons.mp he' with rfl | he''
              · intro hc
                rw [hf2] at hc
                exact Option.noConfusion hc
              · exact (ih _ _).mp h e he''
          · intro h
            exact (ih _ _).mpr fun e he =>
              h e (List.mem_cons_of_mem _ (List.mem_cons_of_mem _ he))

theorem loop_fail_evals (kMethod : NumericDiffMethod)
    (f : List (List ℚ) → Option (List ℚ)) (rE x st : List ℚ) (m i n : ℕ) :
    ∀ (js : List ℕ) (p : List (List ℚ)) (q : List ℚ),
      (forEachCoordinate kMethod f rE x st m i n js p q).ok = false →
      ∃ pre last,
        (forEachCoordinate kMethod f rE x st m i n js p q).evals = pre ++ [last] ∧
        f last = none ∧ ∀ e ∈ pre, f e ≠ none := by
  intro js
  induction js with
  | nil =>
    intro p q hok
    exact Bool.noConfusion hok
  | cons j js ih =>
    intro p q hok
    cases hf1 : f (setCoord p i j (x.getD j 0 + deltaAt st j)) with
    | none =>
      refine ⟨[], setCoord p i j (x.getD j 0 + deltaAt st j), ?_, hf1, by simp⟩
      simp only [forEachCoordinate, hf1]
      rfl
    | some rp0 =>
      cases kMethod with
      | FORWARD =>
        simp only [forEachCoordinate, hf1, reduceIte] at hok ⊢
        obtain ⟨pre, last, hev, hlast, hpre⟩ := ih _ _ hok
        refine ⟨setCoord p i j (x.getD j 0 + deltaAt st j) :: pre, last, ?_, hlast, ?_⟩
        · rw [hev]
          rfl
        · intro e he
          rcases List.mem_cons.mp he with rfl | he'
          · intro hc
            rw [hf1] at hc
            exact Option.noConfusion hc
          · exact hpre e he'
      | CENTRAL =>
        cases hf2 : f (setCoord (setCoord p i j (x.getD j 0 + deltaAt st j)) i j
            (x.getD j 0 - deltaAt st j)) with
        | none =>
          refine ⟨[setCoord p i j (x.getD j 0 + deltaAt st j)],
            setCoord (setCoord p i j (x.getD j 0 + deltaAt st j)) i j
              (x.getD j 0 - deltaAt st j), ?_, hf2, ?_⟩
          · simp only [forEachCoordinate, hf1, reduceIte, hf2]
            rfl
          · intro e he
            rcases List.mem_cons.mp he with rfl | he'
            · intro hc
              rw [hf1] at hc
              exact Option.noConfusion hc
            · exact absurd he' (List.not_mem_nil e)
        | some rm0 =>
          simp only [forEachCoordinate, hf1, reduceIte, hf2] at hok ⊢
          obtain ⟨pre, last, hev, hlast, hpre⟩ := ih _ _ hok
          refine ⟨setCoord p i j (x.getD j 0 + deltaAt st j) ::
            setCoord (setCoord p i j (x.getD j 0 + deltaAt st j)) i j
              (x.getD j 0 - deltaAt st j) :: pre, last, ?_, hlast, ?_⟩
          · rw [hev]
            rfl
          · intro e he
            rcases List.mem_cons.mp he with rfl | he'
            · intro hc
              rw [hf1] at hc
              exact Option.noConfusion hc
            · rcases List.mem_cons.mp he' with rfl | he''
              · intro hc
                rw [hf2] at hc
                exact Option.noConfusion hc
              · exact hpre e he''

/-! ### Reduction helpers for the differencing-method branch -/

theorem ite_method_forward {α : Type} (a b : α) :
    (if NumericDiffMethod.FORWARD = NumericDiffMethod.CENTRAL then a else b) = b :=
  if_neg (fun h => NumericDiffMethod.noConfusion h)

theorem ite_method_central {α : Type} (a b : α) :
    (if NumericDiffMethod.CENTRAL = NumericDiffMethod.CENTRAL then a else b) = a :=
  if_pos rfl

theorem loop_ok_jacobian (kMethod : NumericDiffMethod)
    (f : List (List ℚ) → Option (List ℚ)) (rE x st : List ℚ) (m i n : ℕ) :
    ∀ (js : List ℕ) (p : List (List ℚ)) (q : List ℚ),
      (∀ j ∈ js, (p.getD i []).getD j 0 = x.getD j 0) →
      (∀ j ∈ js, j < n) → js.Nodup →
      m * n ≤ q.length →
      (forEachCoordinate kMethod f rE x st m i n js p q).ok = true →
      ((forEachCoordinate kMethod f rE x st m i n js p q).jacobian.length = q.length ∧
       (∀ k : ℕ, k % n ∉ js →
         (forEachCoordinate kMethod f rE x st m i n js p q).jacobian.getD k 0 = q.getD k 0) ∧
       (∀ c ∈ js, ∀ row : ℕ, row < m → ∀ rp : List ℚ,
         f (setCoord p i c (x.getD c 0 + deltaAt st c)) = some rp →
         ((kMethod = NumericDiffMethod.FORWARD →
            (forEachCoordinate kMethod f rE x st m i n js p q).jacobian.getD (row * n + c) 0 =
              (rp.getD row 0 - rE.getD row 0) * (1 / deltaAt st c)) ∧
          (kMethod = NumericDiffMethod.CENTRAL → ∀ rm : List ℚ,
            f (setCoord p i c (x.getD c 0 - deltaAt st c)) = some rm →
            (forEachCoordinate kMethod f rE x st m i n js p q).jacobian.getD (row * n + c) 0 =
              (rp.getD row 0 - rm.getD row 0) * (1 / deltaAt st c / 2))))) := by
  intro js
  induction js with
  | nil =>
    intro p q hx hjs hnd hq hok
    exact ⟨rfl, fun k _ => rfl, fun c hc => absurd hc (List.not_mem_nil c)⟩
  | cons j js ih =>
    intro p q hx hjs hnd hq hok
    have hx0 : (p.getD i []).getD j 0 = x.getD j 0 := hx j (List.mem_cons_self j js)
    have hx' : ∀ j' ∈ js, (p.getD i []).getD j' 0 = x.getD j' 0 :=
      fun j' h => hx j' (List.mem_cons_of_mem _ h)
    have hjn : j < n := hjs j (List.mem_cons_self j js)
    have hjs' : ∀ j' ∈ js, j' < n := fun j' h => hjs j' (List.mem_cons_of_mem _ h)
    have hjnotin : j ∉ js := (List.nodup_cons.mp hnd).1
    have hnd' : js.Nodup := (List.nodup_cons.mp hnd).2
    cases hf1 : f (setCoord p i j (x.getD j 0 + deltaAt st j)) with
    | none =>
      simp only [forEachCoordinate, hf1] at hok
      exact Bool.noConfusion hok
    | some rp0 =>
      cases kMethod with
      | FORWARD =>
        have hp2 : setCoord (setCoord p i j (x.getD j 0 + deltaAt st j)) i j
            (x.getD j 0) = p := by
          rw [setCoord_collapse, ← hx0, setCoord_restore]
        simp only [forEachCoordinate, hf1, ite_method_forward] at hok ⊢
        rw [hp2] at hok ⊢
        have hqJ : m * n ≤ (colScale (colSub (colAssign q m n j rp0) m n j rE) m n j
            (1 / deltaAt st j)).length := by
          rw [colScale_length, colSub_length, colAssign_length]
          exact hq
        obtain ⟨ihlen, ihpres, ihcol⟩ := ih p _ hx' hjs' hnd' hqJ hok
        refine ⟨?_, ?_, ?_⟩
        · rw [ihlen, colScale_length, colSub_length, colAssign_length]
        · intro k hk
          have hkj : ¬(k % n = j ∧ k / n < m) :=
            fun hand => hk (List.mem_cons.mpr (Or.inl hand.1))
          rw [ihpres k (fun hin => hk (List.mem_cons_of_mem _ hin)),
            colScale_getD_untouched _ _ _ _ _ _ hkj,
            colSub_getD_untouched _ _ _ _ _ _ hkj,
            colAssign_getD_untouched _ _ _ _ _ _ hkj]
        · intro c hc row hrow rp hplus
          rcases List.mem_cons.mp hc with rfl | hc'
          · rw [hplus] at hf1
            injection hf1 with hrp
            subst hrp
            constructor
            · intro _
              rw [ihpres (row * n + c)
                  (by rw [rowcol_mod row n c hjn]; exact hjnotin),
                colScale_entry _ _ _ _ _ _ _ hjn hrow
                  (by rw [colSub_length, colAssign_length]; exact hq),
                if_pos rfl,
                colSub_entry _ _ _ _ _ _ _ hjn hrow
                  (by rw [colAssign_length]; exact hq),
                if_pos rfl,
                colAssign_entry _ _ _ _ _ _ _ hjn hrow hq,
                if_pos rfl]
            · intro hcm
              exact NumericDiffMethod.noConfusion hcm
          · have ic := ihcol c hc' row hrow rp hplus
            exact ⟨fun _ => ic.1 rfl, ic.2⟩
      | CENTRAL =>
        cases hf2 : f (setCoord (setCoord p i j (x.getD j 0 + deltaAt st j)) i j
            (x.getD j 0 - deltaAt st j)) with
        | none =>
          simp only [forEachCoordinate, hf1, ite_true, hf2] at hok
          exact Bool.noConfusion hok
        | some rm0 =>
          have hf2c : f (setCoord p i j (x.getD j 0 - deltaAt st j)) = some rm0 := by
            rw [← setCoord_collapse p i j (x.getD j 0 + deltaAt st j)]
            exact hf2
          have hp3 : setCoord (setCoord (setCoord p i j (x.getD j 0 + deltaAt st j)) i j
              (x.getD j 0 - deltaAt st j)) i j (x.getD j 0) = p := by
            rw [setCoord_collapse, setCoord_collapse, ← hx0, setCoord_restore]
          simp only [forEachCoordinate, hf1, ite_true, hf2] at hok ⊢
          rw [hp3] at hok ⊢
          have hqJ : m * n ≤ (colScale (colSub (colAssign q m n j rp0) m n j rm0) m n j
              (1 / deltaAt st j / 2)).length := by
            rw [colScale_length, colSub_length, colAssign_length]
            exact hq
          obtain ⟨ihlen, ihpres, ihcol⟩ := ih p _ hx' hjs' hnd' hqJ hok
          refine ⟨?_, ?_, ?_⟩
          · rw [ihlen, colScale_length, colSub_length, colAssign_length]
          · intro k hk
            have hkj : ¬(k % n = j ∧ k / n < m) :=
              fun hand => hk (List.mem_cons.mpr (Or.inl hand.1))
            rw [ihpres k (fun hin => hk (List.mem_cons_of_mem _ hin)),
              colScale_getD_untouched _ _ _ _ _ _ hkj,
              colSub_getD_untouched _ _ _ _ _ _ hkj,
              colAssign_getD_untouched _ _ _ _ _ _ hkj]
          · intro c hc row hrow rp hplus
            rcases List.mem_cons.mp hc with rfl | hc'
            · rw [hplus] at hf1
              injection hf1 with hrp
              subst hrp
              constructor
              · intro hcm
                exact NumericDiffMethod.noConfusion hcm
              · intro _ rm hminus
                rw [hminus] at hf2c
                injection hf2c with hrm
                subst hrm
                rw [ihpres (row * n + c)
                    (by rw [rowcol_mod row n c hjn]; exact hjnotin),
                  colScale_entry _ _ _ _ _ _ _ hjn hrow
                    (by rw [colSub_length, colAssign_length]; exact hq),
                  if_pos rfl,
                  colSub_entry _ _ _ _ _ _ _ hjn hrow
                    (by rw [colAssign_length]; exact hq),
                  if_pos rfl,
                  colAssign_entry _ _ _ _ _ _ _ hjn hrow hq,
                  if_pos rfl]
            · have ic := ihcol c hc' row hrow rp hplus
              exact ⟨ic.1, fun _ => ic.2 rfl⟩

/-! ### Further step-size helper lemmas -/

theorem stepSizeVector_getD (relative_step_size : ℚ) (x : List ℚ) (j : ℕ) :
    (stepSizeVector relative_step_size x).getD j 0 =
      |x.getD j 0| * relative_step_size := by
  induction x generalizing j with
  | nil => simp [stepSizeVector]
  | cons a t ih =>
    cases j with
    | zero => rfl
    | succ j => simpa [stepSizeVector] using ih j

theorem deltaAt_stepSizeVector (relative_step_size : ℚ) (x : List ℚ) (j : ℕ) :
    deltaAt (stepSizeVector relative_step_size x) j =
      max minStepSize (relative_step_size * |x.getD j 0|) := by
  unfold deltaAt
  rw [stepSizeVector_getD, mul_comm]

/-! ### Claim theorems -/

/-- Claim C1: for every successful call to `EvaluateJacobianForParameterBlock`
on a parameter block of effective size `n` with effective residual dimension
`m`, and every coordinate `j < n` and residual row `row < m`, with
`delta = max(sqrt(machine_epsilon), relative_step_size * |x_j|)`, the
row-major jacobian entry of column `j` holds
`(f(x + delta e_j) - f(x)) / delta` for FORWARD (with `f(x)` the supplied
`residuals_at_eval_point`) and `(f(x + delta e_j) - f(x - delta e_j)) / (2 delta)`
for CENTRAL, where the evaluation points perturb only coordinate `j` of the
target block. -/
theorem jacobian_column_finite_difference
    (kMethod : NumericDiffMethod)
    (kNumResiduals kParameterBlock kParameterBlockSize : Int)
    (functor : List (List ℚ) → Option (List ℚ))
    (residuals_at_eval_point : List ℚ) (relative_step_size : ℚ)
    (num_residuals parameter_block_index parameter_block_size : Int)
    (parameters : List (List ℚ)) (jacobian : List ℚ)
    (m i n : ℕ)
    (hm : m = (resolveDim kNumResiduals num_residuals).toNat)
    (hi : i = (resolveDim kParameterBlock parameter_block_index).toNat)
    (hn : n = (resolveDim kParameterBlockSize parameter_block_size).toNat)
    (hq : m * n ≤ jacobian.length)
    (hok : (EvaluateJacobianForParameterBlock kMethod kNumResiduals kParameterBlock
        kParameterBlockSize functor residuals_at_eval_point relative_step_size
        num_residuals parameter_block_index parameter_block_size parameters
        jacobian).ok = true)
    (j row : ℕ) (hj : j < n) (hrow : row < m)
    (xj delta : ℚ)
    (hxj : xj = (parameters.getD i []).getD j 0)
    (hdelta : delta = max minStepSize (relative_step_size * |xj|))
    (rplus rminus : List ℚ)
    (hplus : functor (setCoord parameters i j (xj + delta)) = some rplus)
    (hminus : kMethod = NumericDiffMethod.CENTRAL →
      functor (setCoord parameters i j (xj - delta)) = some rminus) :
    (EvaluateJacobianForParameterBlock kMethod kNumResiduals kParameterBlock
        kParameterBlockSize functor residuals_at_eval_point relative_step_size
        num_residuals parameter_block_index parameter_block_size parameters
        jacobian).jacobian.getD (row * n + j) 0 =
      if kMethod = NumericDiffMethod.CENTRAL
      then (rplus.getD row 0 - rminus.getD row 0) / (2 * delta)
      else (rplus.getD row 0 - residuals_at_eval_point.getD row 0) / delta := by
  subst hm hi hn hxj
  have hd : deltaAt (stepSizeVector relative_step_size
      (parameters.getD (resolveDim kParameterBlock parameter_block_index).toNat [])) j =
      delta := by
    rw [deltaAt_stepSizeVector, hdelta]
  have key := loop_ok_jacobian kMethod functor residuals_at_eval_point
    (parameters.getD (resolveDim kParameterBlock parameter_block_index).toNat [])
    (stepSizeVector relative_step_size
      (parameters.getD (resolveDim kParameterBlock parameter_block_index).toNat []))
    (resolveDim kNumResiduals num_residuals).toNat
    (resolveDim kParameterBlock parameter_block_index).toNat
    (resolveDim kParameterBlockSize parameter_block_size).toNat
    (List.range (resolveDim kParameterBlockSize parameter_block_size).toNat)
    parameters jacobian (fun _ _ => rfl)
    (fun j' hj' => List.mem_range.mp hj') (List.nodup_range _) hq hok
  obtain ⟨-, -, hcol⟩ := key
  have h3 := hcol j (List.mem_range.mpr hj) row hrow rplus (by rw [hd]; exact hplus)
  cases kMethod with
  | FORWARD =>
    rw [ite_method_forward]
    have hval := h3.1 rfl
    rw [hd, mul_one_div] at hval
    exact hval
  | CENTRAL =>
    rw [ite_method_central]
    have hval := h3.2 rfl rminus (by rw [hd]; exact hminus rfl)
    rw [hd, div_div, mul_one_div, mul_comm delta 2] at hval
    exact hval

/-- Witness for C1: a concrete CENTRAL call with one residual
`f(ps) = ps[0][0]`, block `[1]`, relative step `1/2` (so `delta = 1/2`):
the single jacobian entry equals `(3/2 - 1/2) / (2 * (1/2)) = 1`. -/
theorem jacobian_column_finite_difference_witness :
    (EvaluateJacobianForParameterBlock NumericDiffMethod.CENTRAL (-1) (-1) (-1)
        fdiag [] (1/2) 1 0 1 [[1]] [0]).ok = true ∧
    (EvaluateJacobianForParameterBlock NumericDiffMethod.CENTRAL (-1) (-1) (-1)
        fdiag [] (1/2) 1 0 1 [[1]] [0]).jacobian.getD (0 * 1 + 0) 0 =
      if NumericDiffMethod.CENTRAL = NumericDiffMethod.CENTRAL
      then (([3/2] : List ℚ).getD 0 0 - ([1/2] : List ℚ).getD 0 0) / (2 * (1/2))
      else (([3/2] : List ℚ).getD 0 0 - ([] : List ℚ).getD 0 0) / (1/2) :=
  ⟨by with_unfolding_all decide,
   jacobian_column_finite_difference NumericDiffMethod.CENTRAL (-1) (-1) (-1)
     fdiag [] (1/2) 1 0 1 [[1]] [0] 1 0 1 rfl rfl rfl (by decide)
     (by with_unfolding_all decide) 0 0 (by decide) (by decide) 1 (1/2)
     (by with_unfolding_all decide) (by with_unfolding_all decide)
     [3/2] [1/2] (by with_unfolding_all decide)
     (fun _ => by with_unfolding_all decide)⟩

/-- Claim C2 counterexample: a FORWARD call on block `[2]` with relative step
`1` whose very first (initial, `x + delta`) evaluation fails: the call returns
`false` but the target block is left at `[4] = [2 + delta]`, not restored to
`[2]` — contradicting the claim that the initial-evaluation failure path
restores the perturbed coordinate. -/
theorem failure_restoration_counterexample :
    EvaluateJacobianForParameterBlock NumericDiffMethod.FORWARD (-1) (-1) (-1)
        fnone [] 1 1 0 1 [[2]] [0] =
      ⟨false, [[4]], [0], [[[4]]]⟩ ∧
    (([[4]] : List (List ℚ)) ≠ [[2]]) := by
  with_unfolding_all decide

/-- Claim C2 (amended): on every failure return of
`EvaluateJacobianForParameterBlock` there is a coordinate `j < n` whose
evaluation failed and which is left at its perturbed value — `x_j + delta_j`
when the initial (`x + delta`) evaluation failed (for either method), or
`x_j - delta_j` when the CENTRAL backward evaluation failed; all other
coordinates of all blocks hold their original values (the final state is
`setCoord` of the input at that single coordinate). -/
theorem failure_leaves_coordinate_perturbed
    (kMethod : NumericDiffMethod)
    (kNumResiduals kParameterBlock kParameterBlockSize : Int)
    (functor : List (List ℚ) → Option (List ℚ))
    (residuals_at_eval_point : List ℚ) (relative_step_size : ℚ)
    (num_residuals parameter_block_index parameter_block_size : Int)
    (parameters : List (List ℚ)) (jacobian : List ℚ)
    (i n : ℕ)
    (hi : i = (resolveDim kParameterBlock parameter_block_index).toNat)
    (hn : n = (resolveDim kParameterBlockSize parameter_block_size).toNat)
    (hfail : (EvaluateJacobianForParameterBlock kMethod kNumResiduals kParameterBlock
        kParameterBlockSize functor residuals_at_eval_point relative_step_size
        num_residuals parameter_block_index parameter_block_size parameters
        jacobian).ok = false) :
    ∃ j, j < n ∧
      (((EvaluateJacobianForParameterBlock kMethod kNumResiduals kParameterBlock
          kParameterBlockSize functor residuals_at_eval_point relative_step_size
          num_residuals parameter_block_index parameter_block_size parameters
          jacobian).params =
          setCoord parameters i j ((parameters.getD i []).getD j 0 +
            deltaAt (stepSizeVector relative_step_size (parameters.getD i [])) j) ∧
        functor (setCoord parameters i j ((parameters.getD i []).getD j 0 +
          deltaAt (stepSizeVector relative_step_size (parameters.getD i [])) j)) = none) ∨
       (kMethod = NumericDiffMethod.CENTRAL ∧
        (EvaluateJacobianForParameterBlock kMethod kNumResiduals kParameterBlock
          kParameterBlockSize functor residuals_at_eval_point relative_step_size
          num_residuals parameter_block_index parameter_block_size parameters
          jacobian).params =
          setCoord parameters i j ((parameters.getD i []).getD j 0 -
            deltaAt (stepSizeVector relative_step_size (parameters.getD i [])) j) ∧
        functor (setCoord parameters i j ((parameters.getD i []).getD j 0 -
          deltaAt (stepSizeVector relative_step_size (parameters.getD i [])) j)) = none)) := by
  subst hi hn
  obtain ⟨j, hj, hcase⟩ := loop_fail_params kMethod functor residuals_at_eval_point
    (parameters.getD (resolveDim kParameterBlock parameter_block_index).toNat [])
    (stepSizeVector relative_step_size
      (parameters.getD (resolveDim kParameterBlock parameter_block_index).toNat []))
    (resolveDim kNumResiduals num_residuals).toNat
    (resolveDim kParameterBlock parameter_block_index).toNat
    (resolveDim kParameterBlockSize parameter_block_size).toNat
    (List.range (resolveDim kParameterBlockSize parameter_block_size).toNat)
    parameters jacobian (fun _ _ => rfl) hfail
  exact ⟨j, List.mem_range.mp hj, hcase⟩

/-- Witness for the amended C2: concrete FORWARD call on block `[3]` with an
always-failing evaluation; the hypotheses of
`failure_leaves_coordinate_perturbed` hold and the existential conclusion
follows. -/
theorem failure_leaves_coordinate_perturbed_witness :
    (EvaluateJacobianForParameterBlock NumericDiffMethod.FORWARD (-1) (-1) (-1)
        fnone [] 1 1 0 1 [[3]] [0]).ok = false ∧
    ∃ j, j < 1 ∧
      (((EvaluateJacobianForParameterBlock NumericDiffMethod.FORWARD (-1) (-1) (-1)
          fnone [] 1 1 0 1 [[3]] [0]).params =
          setCoord [[3]] 0 j ((([[3]] : List (List ℚ)).getD 0 []).getD j 0 +
            deltaAt (stepSizeVector 1 (([[3]] : List (List ℚ)).getD 0 [])) j) ∧
        fnone (setCoord [[3]] 0 j ((([[3]] : List (List ℚ)).getD 0 []).getD j 0 +
          deltaAt (stepSizeVector 1 (([[3]] : List (List ℚ)).getD 0 [])) j)) = none) ∨
       (NumericDiffMethod.FORWARD = NumericDiffMethod.CENTRAL ∧
        (EvaluateJacobianForParameterBlock NumericDiffMethod.FORWARD (-1) (-1) (-1)
          fnone [] 1 1 0 1 [[3]] [0]).params =
          setCoord [[3]] 0 j ((([[3]] : List (List ℚ)).getD 0 []).getD j 0 -
            deltaAt (stepSizeVector 1 (([[3]] : List (List ℚ)).getD 0 [])) j) ∧
        fnone (setCoord [[3]] 0 j ((([[3]] : List (List ℚ)).getD 0 []).getD j 0 -
          deltaAt (stepSizeVector 1 (([[3]] : List (List ℚ)).getD 0 [])) j)) = none)) :=
  ⟨by with_unfolding_all decide,
   failure_leaves_coordinate_perturbed NumericDiffMethod.FORWARD (-1) (-1) (-1)
     fnone [] 1 1 0 1 [[3]] [0] 0 1 rfl rfl (by with_unfolding_all decide)⟩

/-- Claim C3: for every coordinate `j` (including out-of-range reads, which
behave as `x_j = 0`), the perturbation used by the loop equals
`max(sqrt(machine_epsilon), relative_step_size * |x_j|)`; it never falls
below `minStepSize`, which is positive and is the exact square root of
machine epsilon. -/
theorem step_size_floor (relative_step_size : ℚ) (x : List ℚ) (j : ℕ) :
    deltaAt (stepSizeVector relative_step_size x) j =
      max minStepSize (relative_step_size * |x.getD j 0|) ∧
    minStepSize ≤ deltaAt (stepSizeVector relative_step_size x) j ∧
    0 < minStepSize ∧
    minStepSize * minStepSize = machineEpsilon := by
  refine ⟨deltaAt_stepSizeVector relative_step_size x j, ?_, ?_, ?_⟩
  · unfold deltaAt
    exact le_max_left _ _
  · norm_num [minStepSize]
  · norm_num [minStepSize, machineEpsilon]

/-- Claim C4: every call of `EvaluateJacobianForParameterBlock` that returns
`true` leaves the parameter blocks exactly equal to their input state: each
coordinate's transient perturbation is undone on every loop iteration. -/
theorem params_restored_on_success
    (kMethod : NumericDiffMethod)
    (kNumResiduals kParameterBlock kParameterBlockSize : Int)
    (functor : List (List ℚ) → Option (List ℚ))
    (residuals_at_eval_point : List ℚ) (relative_step_size : ℚ)
    (num_residuals parameter_block_index parameter_block_size : Int)
    (parameters : List (List ℚ)) (jacobian : List ℚ)
    (hok : (EvaluateJacobianForParameterBlock kMethod kNumResiduals kParameterBlock
        kParameterBlockSize functor residuals_at_eval_point relative_step_size
        num_residuals parameter_block_index parameter_block_size parameters
        jacobian).ok = true) :
    (EvaluateJacobianForParameterBlock kMethod kNumResiduals kParameterBlock
        kParameterBlockSize functor residuals_at_eval_point relative_step_size
        num_residuals parameter_block_index parameter_block_size parameters
        jacobian).params = parameters :=
  loop_ok_params kMethod functor residuals_at_eval_point
    (parameters.getD (resolveDim kParameterBlock parameter_block_index).toNat [])
    (stepSizeVector relative_step_size
      (parameters.getD (resolveDim kParameterBlock parameter_block_index).toNat []))
    (resolveDim kNumResiduals num_residuals).toNat
    (resolveDim kParameterBlock parameter_block_index).toNat
    (resolveDim kParameterBlockSize parameter_block_size).toNat
    (List.range (resolveDim kParameterBlockSize parameter_block_size).toNat)
    parameters jacobian (fun _ _ => rfl) hok

/-- Witness for C4: a successful concrete FORWARD call on block `[2]` returns
the block unchanged. -/
theorem params_restored_on_success_witness :
    (EvaluateJacobianForParameterBlock NumericDiffMethod.FORWARD (-1) (-1) (-1)
        fdiag [0] 1 1 0 1 [[2]] [0]).ok = true ∧
    (EvaluateJacobianForParameterBlock NumericDiffMethod.FORWARD (-1) (-1) (-1)
        fdiag [0] 1 1 0 1 [[2]] [0]).params = [[2]] :=
  ⟨by with_unfolding_all decide,
   params_restored_on_success NumericDiffMethod.FORWARD (-1) (-1) (-1)
     fdiag [0] 1 1 0 1 [[2]] [0] (by with_unfolding_all decide)⟩

/-- Claim C5: `EvaluateJacobianForParameterBlock` returns `true` iff every
invocation of the residual-evaluation capability during the call succeeded;
on failure the recorded evaluation trace is a succeeding prefix followed by
the single failing evaluation — the call returns immediately and performs no
further evaluations. -/
theorem ok_iff_all_evaluations_succeed
    (kMethod : NumericDiffMethod)
    (kNumResiduals kParameterBlock kParameterBlockSize : Int)
    (functor : List (List ℚ) → Option (List ℚ))
    (residuals_at_eval_point : List ℚ) (relative_step_size : ℚ)
    (num_residuals parameter_block_index parameter_block_size : Int)
    (parameters : List (List ℚ)) (jacobian : List ℚ) :
    ((EvaluateJacobianForParameterBlock kMethod kNumResiduals kParameterBlock
        kParameterBlockSize functor residuals_at_eval_point relative_step_size
        num_residuals parameter_block_index parameter_block_size parameters
        jacobian).ok = true ↔
      ∀ e ∈ (EvaluateJacobianForParameterBlock kMethod kNumResiduals kParameterBlock
        kParameterBlockSize functor residuals_at_eval_point relative_step_size
        num_residuals parameter_block_index parameter_block_size parameters
        jacobian).evals, functor e ≠ none) ∧
    ((EvaluateJacobianForParameterBlock kMethod kNumResiduals kParameterBlock
        kParameterBlockSize functor residuals_at_eval_point relative_step_size
        num_residuals parameter_block_index parameter_block_size parameters
        jacobian).ok = false →
      ∃ pre last,
        (EvaluateJacobianForParameterBlock kMethod kNumResiduals kParameterBlock
          kParameterBlockSize functor residuals_at_eval_point relative_step_size
          num_residuals parameter_block_index parameter_block_size parameters
          jacobian).evals = pre ++ [last] ∧
        functor last = none ∧ ∀ e ∈ pre, functor e ≠ none) :=
  ⟨loop_ok_iff kMethod functor residuals_at_eval_point
      (parameters.getD (resolveDim kParameterBlock parameter_block_index).toNat [])
      (stepSizeVector relative_step_size
        (parameters.getD (resolveDim kParameterBlock parameter_block_index).toNat []))
      (resolveDim kNumResiduals num_residuals).toNat
      (resolveDim kParameterBlock parameter_block_index).toNat
      (resolveDim kParameterBlockSize parameter_block_size).toNat
      (List.range (resolveDim kParameterBlockSize parameter_block_size).toNat)
      parameters jacobian,
   loop_fail_evals kMethod functor residuals_at_eval_point
      (parameters.getD (resolveDim kParameterBlock parameter_block_index).toNat [])
      (stepSizeVector relative_step_size
        (parameters.getD (resolveDim kParameterBlock parameter_block_index).toNat []))
      (resolveDim kNumResiduals num_residuals).toNat
      (resolveDim kParameterBlock parameter_block_index).toNat
      (resolveDim kParameterBlockSize parameter_block_size).toNat
      (List.range (resolveDim kParameterBlockSize parameter_block_size).toNat)
      parameters jacobian⟩

/-- Witness for C5: an always-failing evaluation on block `[5]` produces a
failure return whose trace is empty-prefix plus the single failing point. -/
theorem ok_iff_all_evaluations_succeed_witness :
    (EvaluateJacobianForParameterBlock NumericDiffMethod.FORWARD (-1) (-1) (-1)
        fnone [] 1 1 0 1 [[5]] [0]).ok = false ∧
    ∃ pre last,
      (EvaluateJacobianForParameterBlock NumericDiffMethod.FORWARD (-1) (-1) (-1)
        fnone [] 1 1 0 1 [[5]] [0]).evals = pre ++ [last] ∧
      fnone last = none ∧ ∀ e ∈ pre, fnone e ≠ none :=
  ⟨by with_unfolding_all decide,
   (ok_iff_all_evaluations_succeed NumericDiffMethod.FORWARD (-1) (-1) (-1)
     fnone [] 1 1 0 1 [[5]] [0]).2 (by with_unfolding_all decide)⟩

/-- Claim C6: with the compile-time block size `0`, the C++ template dispatch
selects the partial specialization, whose call signals the fatal,
non-recoverable `LOG(FATAL)` condition; this outcome is distinct from every
normal return (success or ordinary evaluation failure). -/
theorem zero_size_block_is_fatal
    (kMethod : NumericDiffMethod) (kNumResiduals kParameterBlock : Int)
    (functor : List (List ℚ) → Option (List ℚ))
    (residuals_at_eval_point : List ℚ) (relative_step_size : ℚ)
    (num_residuals parameter_block_index parameter_block_size : Int)
    (parameters : List (List ℚ)) (jacobian : List ℚ) :
    NumericDiffDispatch kMethod kNumResiduals kParameterBlock 0 functor
      residuals_at_eval_point relative_step_size num_residuals
      parameter_block_index parameter_block_size parameters jacobian =
        NDOutcome.fatal ∧
    ∀ res : NDResult,
      NumericDiffDispatch kMethod kNumResiduals kParameterBlock 0 functor
        residuals_at_eval_point relative_step_size num_residuals
        parameter_block_index parameter_block_size parameters jacobian ≠
          NDOutcome.normal res := by
  refine ⟨rfl, ?_⟩
  intro res h
  exact NDOutcome.noConfusion h

/-- Witness for C6: the fatal outcome at concrete inputs, distinct from a
concrete normal return. -/
theorem zero_size_block_is_fatal_witness :
    NumericDiffDispatch NumericDiffMethod.FORWARD 1 0 0 fnone [] 0 0 0 0 [[]] [] =
      NDOutcome.fatal ∧
    NumericDiffDispatch NumericDiffMethod.FORWARD 1 0 0 fnone [] 0 0 0 0 [[]] [] ≠
      NDOutcome.normal ⟨true, [[]], [], []⟩ :=
  ⟨(zero_size_block_is_fatal NumericDiffMethod.FORWARD 1 0 fnone [] 0 0 0 0 [[]] []).1,
   (zero_size_block_is_fatal NumericDiffMethod.FORWARD 1 0 fnone [] 0 0 0 0 [[]] []).2
     ⟨true, [[]], [], []⟩⟩

/-- Claim C7: each effective dimension (residual count, block index, block
size) is resolved by preferring the compile-time template constant whenever
it is not `DYNAMIC` and falling back to the run-time argument only when the
constant is `DYNAMIC`; consequently, when all three constants are static the
call's result does not depend on the run-time size arguments at all. -/
theorem dims_prefer_compile_time_constants :
    (∀ k runtime : Int, k ≠ DYNAMIC → resolveDim k runtime = k) ∧
    (∀ runtime : Int, resolveDim DYNAMIC runtime = runtime) ∧
    (∀ (kMethod : NumericDiffMethod) (kNumResiduals kParameterBlock kParameterBlockSize : Int)
      (functor : List (List ℚ) → Option (List ℚ))
      (residuals_at_eval_point : List ℚ) (relative_step_size : ℚ)
      (nr1 pbi1 pbs1 nr2 pbi2 pbs2 : Int)
      (parameters : List (List ℚ)) (jacobian : List ℚ),
      kNumResiduals ≠ DYNAMIC → kParameterBlock ≠ DYNAMIC →
      kParameterBlockSize ≠ DYNAMIC →
      EvaluateJacobianForParameterBlock kMethod kNumResiduals kParameterBlock
        kParameterBlockSize functor residuals_at_eval_point relative_step_size
        nr1 pbi1 pbs1 parameters jacobian =
      EvaluateJacobianForParameterBlock kMethod kNumResiduals kParameterBlock
        kParameterBlockSize functor residuals_at_eval_point relative_step_size
        nr2 pbi2 pbs2 parameters jacobian) := by
  refine ⟨?_, ?_, ?_⟩
  · intro k runtime hk
    simp [resolveDim, hk]
  · intro runtime
    simp [resolveDim]
  · intro kMethod kNumResiduals kParameterBlock kParameterBlockSize functor
      residuals_at_eval_point relative_step_size nr1 pbi1 pbs1 nr2 pbi2 pbs2
      parameters jacobian h1 h2 h3
    simp only [EvaluateJacobianForParameterBlock, resolveDim, if_pos h1,
      if_pos h2, if_pos h3]

/-- Witness for C7: concrete resolutions and a concrete pair of calls with
static sizes and different run-time arguments giving identical results. -/
theorem dims_prefer_compile_time_constants_witness :
    resolveDim 2 7 = 2 ∧ resolveDim DYNAMIC 7 = 7 ∧
    EvaluateJacobianForParameterBlock NumericDiffMethod.FORWARD 1 0 1 fdiag [0] 1
        5 9 2 [[1]] [0] =
      EvaluateJacobianForParameterBlock NumericDiffMethod.FORWARD 1 0 1 fdiag [0] 1
        6 8 3 [[1]] [0] :=
  ⟨dims_prefer_compile_time_constants.1 2 7 (by decide),
   dims_prefer_compile_time_constants.2.1 7,
   dims_prefer_compile_time_constants.2.2 NumericDiffMethod.FORWARD 1 0 1 fdiag
     [0] 1 5 9 2 6 8 3 [[1]] [0] (by decide) (by decide) (by decide)⟩

/-- Claim C8: with the CENTRAL method the entire result of
`EvaluateJacobianForParameterBlock` — the returned boolean, the final
parameter state, every value of the jacobian buffer, and the evaluation
trace — is independent of `residuals_at_eval_point`: two calls identical
except for that argument return identical results. -/
theorem central_ignores_residuals_at_eval_point
    (kNumResiduals kParameterBlock kParameterBlockSize : Int)
    (functor : List (List ℚ) → Option (List ℚ))
    (residuals_at_eval_point1 residuals_at_eval_point2 : List ℚ)
    (relative_step_size : ℚ)
    (num_residuals parameter_block_index parameter_block_size : Int)
    (parameters : List (List ℚ)) (jacobian : List ℚ) :
    EvaluateJacobianForParameterBlock NumericDiffMethod.CENTRAL kNumResiduals
      kParameterBlock kParameterBlockSize functor residuals_at_eval_point1
      relative_step_size num_residuals parameter_block_index
      parameter_block_size parameters jacobian =
    EvaluateJacobianForParameterBlock NumericDiffMethod.CENTRAL kNumResiduals
      kParameterBlock kParameterBlockSize functor residuals_at_eval_point2
      relative_step_size num_residuals parameter_block_index
      parameter_block_size parameters jacobian :=
  loop_central_ignores_rE functor residuals_at_eval_point1 residuals_at_eval_point2
    (parameters.getD (resolveDim kParameterBlock parameter_block_index).toNat [])
    (stepSizeVector relative_step_size
      (parameters.getD (resolveDim kParameterBlock parameter_block_index).toNat []))
    (resolveDim kNumResiduals num_residuals).toNat
    (resolveDim kParameterBlock parameter_block_index).toNat
    (resolveDim kParameterBlockSize parameter_block_size).toNat
    (List.range (resolveDim kParameterBlockSize parameter_block_size).toNat)
    parameters jacobian

/-- Claim C9: when the compile-time block size is `DYNAMIC` and the run-time
block size is `0`, no fatal condition is signalled: the dispatch selects the
primary template, the per-coordinate loop runs zero iterations, the
evaluation capability is never invoked (empty trace), the jacobian buffer is
unmodified, and the call returns `true`. -/
theorem dynamic_zero_size_returns_true
    (kMethod : NumericDiffMethod) (kNumResiduals kParameterBlock : Int)
    (functor : List (List ℚ) → Option (List ℚ))
    (residuals_at_eval_point : List ℚ) (relative_step_size : ℚ)
    (num_residuals parameter_block_index : Int)
    (parameters : List (List ℚ)) (jacobian : List ℚ) :
    NumericDiffDispatch kMethod kNumResiduals kParameterBlock DYNAMIC functor
      residuals_at_eval_point relative_step_size num_residuals
      parameter_block_index 0 parameters jacobian =
      NDOutcome.normal ⟨true, parameters, jacobian, []⟩ :=
  rfl

/-- Claim C10: for every input — any sign of `relative_step_size` and of the
parameter values, including zero — the perturbation is at least
`minStepSize` and strictly positive, hence the FORWARD divisor `delta` and
the CENTRAL divisor `2 * delta` are both nonzero: the per-column scaling
never divides by zero. -/
theorem delta_positive_no_division_by_zero
    (relative_step_size : ℚ) (x : List ℚ) (j : ℕ) :
    minStepSize ≤ deltaAt (stepSizeVector relative_step_size x) j ∧
    0 < deltaAt (stepSizeVector relative_step_size x) j ∧
    0 < 2 * deltaAt (stepSizeVector relative_step_size x) j ∧
    deltaAt (stepSizeVector relative_step_size x) j ≠ 0 ∧
    2 * deltaAt (stepSizeVector relative_step_size x) j ≠ 0 := by
  have hmin : (0 : ℚ) < minStepSize := by norm_num [minStepSize]
  have hle : minStepSize ≤ deltaAt (stepSizeVector relative_step_size x) j := by
    unfold deltaAt
    exact le_max_left _ _
  have hpos : 0 < deltaAt (stepSizeVector relative_step_size x) j :=
    lt_of_lt_of_le hmin hle
  exact ⟨hle, hpos, by linarith, ne_of_gt hpos, by positivity⟩

/-- Witness for C10: the bounds instantiated at a negative relative step and
a zero coordinate, where the relative part `|x_j| * r` vanishes or is
negative and only the floor keeps the divisor positive. -/
theorem delta_positive_no_division_by_zero_witness :
    minStepSize ≤ deltaAt (stepSizeVector (-1) [0]) 0 ∧
    0 < deltaAt (stepSizeVector (-1) [0]) 0 ∧
    0 < 2 * deltaAt (stepSizeVector (-1) [0]) 0 ∧
    deltaAt (stepSizeVector (-1) [0]) 0 ≠ 0 ∧
    2 * deltaAt (stepSizeVector (-1) [0]) 0 ≠ 0 :=
  delta_positive_no_division_by_zero (-1) [0] 0
